import Mathlib

/-!
Verification of the Iliad sentiment-analysis pipeline (`example.py`).

Text buffers are modelled as `List Char`.  Python string primitives
(`str.split`, `str.join`, `str.find`, slicing, `str.replace`, the regex
substitutions actually used) are embedded as executable Lean functions,
and each pipeline stage of the source is a definition translated from
its Python body.
-/

/-- Python `s.split(sep)` for a one-character separator `sep`:
the number of parts is the number of occurrences of `sep` plus one,
and the empty string splits to `[""]`. -/
def splitOnChar (sep : Char) : List Char → List (List Char)
  | [] => [[]]
  | c :: rest =>
    if c = sep then [] :: splitOnChar sep rest
    else
      match splitOnChar sep rest with
      | [] => [[c]]
      | p :: ps => (c :: p) :: ps

/-- Python `' '.join(parts)` for character-list parts. -/
def joinSpace : List (List Char) → List Char
  | [] => []
  | [p] => p
  | p :: q :: ps => p ++ ' ' :: joinSpace (q :: ps)

/-- Word counter from the source: `len(iliad.split(' '))`. -/
def count_words (iliad : List Char) : Nat :=
  (splitOnChar ' ' iliad).length

/-- Test that `s` starts with `pat` (the Python scan step used by
substring search). -/
def leadsWith : List Char → List Char → Bool
  | [], _ => true
  | _ :: _, [] => false
  | p :: ps, c :: cs => p = c && leadsWith ps cs

/-- Python `pat in s` (substring containment). -/
def hasSub (pat : List Char) : List Char → Bool
  | [] => pat.isEmpty
  | s@(_ :: rest) => leadsWith pat s || hasSub pat rest

/-- Index of the first occurrence of `pat` in `s`, if any
(the scan underlying Python `str.find`). -/
def findAt (pat : List Char) : List Char → Option Nat
  | [] => if pat.isEmpty then some 0 else none
  | s@(_ :: rest) =>
    if leadsWith pat s then some 0 else (findAt pat rest).map (· + 1)

/-- Python `s.find(pat)`: first index of `pat` in `s`, `-1` if absent. -/
def pyFind (pat s : List Char) : Int :=
  match findAt pat s with
  | some n => (n : Int)
  | none => -1

/-- Python slicing `s[a:b]` (step 1), with negative indices counted from
the end and out-of-range bounds clamped. -/
def pySlice (s : List Char) (a b : Int) : List Char :=
  let n : Int := (s.length : Int)
  let a' : Int := if a < 0 then max (n + a) 0 else min a n
  let b' : Int := if b < 0 then max (n + b) 0 else min b n
  ((s.drop a'.toNat).take (b' - a').toNat)

/-- The body delimiter searched by `get_Iliad`. -/
def endHeaderMark : List Char := "ENGLISH BLANK VERSE.".toList

/-- The footer delimiter searched by `get_Iliad`. -/
def startFooterMark : List Char := "FOOTNOTES".toList

/-- Body extraction `get_Iliad` from the source, with the downloaded
text as input:
`iliad[iliad.find("ENGLISH BLANK VERSE.") : iliad.find("FOOTNOTES")]`. -/
def get_Iliad (iliad : List Char) : List Char :=
  pySlice iliad (pyFind endHeaderMark iliad) (pyFind startFooterMark iliad)

/-- Python `iliad.split('\r\n')`: split on the two-character separator,
leftmost occurrence first. -/
def splitCRLF : List Char → List (List Char)
  | [] => [[]]
  | '\r' :: '\n' :: rest => [] :: splitCRLF rest
  | c :: rest =>
    match splitCRLF rest with
    | [] => [[c]]
    | p :: ps => (c :: p) :: ps

/-- The book-marker substring `'BOOK '` tested by `remove_book_headers`. -/
def bookTag : List Char := "BOOK ".toList

/-- The loop state of `remove_book_headers`: the set of book markers seen
so far (a list used only through membership), the `is_poem` toggle, and
the accumulated poem lines. -/
structure RBHState where
  markers : List (List Char)
  isPoem : Bool
  poem : List (List Char)
  deriving DecidableEq

/-- One iteration of the `remove_book_headers` loop: a line containing
`'BOOK '` flips `is_poem` to `False` on its first occurrence (recording
the marker) and to `True` on a repeated occurrence; the line is appended
to the poem exactly when `is_poem` is `True` afterwards. -/
def rbhStep (st : RBHState) (sentence : List Char) : RBHState :=
  let st' :=
    if hasSub bookTag sentence then
      if sentence ∈ st.markers then
        { st with isPoem := true }
      else
        { markers := sentence :: st.markers, isPoem := false, poem := st.poem }
    else st
  if st'.isPoem then { st' with poem := st'.poem ++ [sentence] } else st'

/-- The `remove_book_headers` loop over a list of lines, from the initial
state (no markers, `is_poem = True`, empty poem). -/
def rbhRun (lines : List (List Char)) : RBHState :=
  lines.foldl rbhStep ⟨[], true, []⟩

/-- Header removal from the source: split on `'\r\n'`, run the
toggle loop, and join the kept lines with `' '`. -/
def remove_book_headers (iliad : List Char) : List Char :=
  joinSpace (rbhRun (splitCRLF iliad)).poem

/-- Step 1 of `clean_poem` after header removal:
`re.sub('\r\n', ' ', iliad)`. -/
def replaceCRLF : List Char → List Char
  | [] => []
  | '\r' :: '\n' :: rest => ' ' :: replaceCRLF rest
  | c :: rest => c :: replaceCRLF rest

/-- Step 2 of `clean_poem`: `iliad.translate(str.maketrans('', '',
string.digits))`, deleting the ASCII digits `'0'`-`'9'`. -/
def stripDigits (iliad : List Char) : List Char :=
  iliad.filter (fun c => !c.isDigit)

/-- Scan for the closing `']'` of a non-greedy match `[\[].*?[\]]`:
the distance to the nearest `']'`, failing at a `'\n'` (which `.` does
not match) or at the end of the string. -/
def findCloseIdx : List Char → Option Nat
  | [] => none
  | ']' :: _ => some 0
  | '\n' :: _ => none
  | _ :: rest => (findCloseIdx rest).map (· + 1)

/-- Step 3a of `clean_poem`: `re.sub("[\[].*?[\]]", "", iliad)`, deleting
each non-greedy bracketed span, scanning left to right. -/
def stripBrackets : List Char → List Char
  | [] => []
  | '[' :: rest =>
    match findCloseIdx rest with
    | some n => stripBrackets (rest.drop (n + 1))
    | none => '[' :: stripBrackets rest
  | c :: rest => c :: stripBrackets rest
  termination_by s => s.length
  decreasing_by
    · simp only [List.length_drop, List.length_cons]; omega
    · simp
    · simp

/-- Step 3b of `clean_poem`: `iliad.replace('—Tr.', '')`. -/
def stripTrMark : List Char → List Char
  | '—' :: 'T' :: 'r' :: '.' :: rest => stripTrMark rest
  | c :: rest => c :: stripTrMark rest
  | [] => []

/-- Python's `\s` character class over `str` (the whitespace characters
matched by `re.sub('\s+', ...)`). -/
def isPySpace (c : Char) : Bool :=
  c = ' ' || c = '\t' || c = '\n' || c = '\r' || c = '\x0b' || c = '\x0c' ||
  c = '\x1c' || c = '\x1d' || c = '\x1e' || c = '\x1f' || c = '\x85' ||
  c = '\xa0' || c = '\u1680' || ('\u2000' ≤ c && c ≤ '\u200a') ||
  c = '\u2028' || c = '\u2029' || c = '\u202f' || c = '\u205f' || c = '\u3000'

/-- The scan of `re.sub('\s+', ' ', iliad)`: the flag records whether the
previous character was whitespace (i.e. whether the scan is inside a run
already replaced by one `' '`). -/
def collapseSpacesAux (inRun : Bool) : List Char → List Char
  | [] => []
  | c :: rest =>
    if isPySpace c then
      if inRun then collapseSpacesAux true rest
      else ' ' :: collapseSpacesAux true rest
    else c :: collapseSpacesAux false rest

/-- Step 4 of `clean_poem`: `re.sub('\s+', ' ', iliad)`, replacing every
maximal run of whitespace by a single space. -/
def collapseSpaces (iliad : List Char) : List Char :=
  collapseSpacesAux false iliad

/-- Cleaning from the source (`clean_poem`): the six cleaning steps
applied in the order of the Python body. -/
def clean_poem (iliad : List Char) : List Char :=
  let s1 := remove_book_headers iliad
  let s2 := replaceCRLF s1
  let s3 := stripDigits s2
  let s4 := stripBrackets s3
  let s5 := stripTrMark s4
  collapseSpaces s5

/-- Apostrophe normalization from the source (`modernize_sentences`):
`iliad.replace('’d', 'ed')`. -/
def modernize_sentences : List Char → List Char
  | '’' :: 'd' :: rest => 'e' :: 'd' :: modernize_sentences rest
  | c :: rest => c :: modernize_sentences rest
  | [] => []

/-- Python `w.lower()` (ASCII case folding, which covers the tokens the
stopword test can match). -/
def pyLower (s : List Char) : List Char := s.map Char.toLower

/-- Modelled from the spec: the "external fixed set of lowercase tokens"
used for membership testing — `stopwords.words('english')` is NLTK corpus
data, not part of the repository's source. This is the standard NLTK
English stopword list. -/
def stop_words : List (List Char) :=
  ["i", "me", "my", "myself", "we", "our", "ours", "ourselves", "you",
   "you\u0027re", "you\u0027ve", "you\u0027ll", "you\u0027d", "your",
   "yours", "yourself", "yourselves", "he", "him", "his", "himself",
   "she", "she\u0027s", "her", "hers", "herself", "it", "it\u0027s",
   "its", "itself", "they", "them", "their", "theirs", "themselves",
   "what", "which", "who", "whom", "this", "that", "that\u0027ll",
   "these", "those", "am", "is", "are", "was", "were", "be", "been",
   "being", "have", "has", "had", "having", "do", "does", "did", "doing",
   "a", "an", "the", "and", "but", "if", "or", "because", "as", "until",
   "while", "of", "at", "by", "for", "with", "about", "against",
   "between", "into", "through", "during", "before", "after", "above",
   "below", "to", "from", "up", "down", "in", "out", "on", "off", "over",
   "under", "again", "further", "then", "once", "here", "there", "when",
   "where", "why", "how", "all", "any", "both", "each", "few", "more",
   "most", "other", "some", "such", "no", "nor", "not", "only", "own",
   "same", "so", "than", "too", "very", "s", "t", "can", "will", "just",
   "don", "don\u0027t", "should", "should\u0027ve", "now", "d", "ll",
   "m", "o", "re", "ve", "y", "ain", "aren", "aren\u0027t", "couldn",
   "couldn\u0027t", "didn", "didn\u0027t", "doesn", "doesn\u0027t",
   "hadn", "hadn\u0027t", "hasn", "hasn\u0027t", "haven",
   "haven\u0027t", "isn", "isn\u0027t", "ma", "mightn",
   "mightn\u0027t", "mustn", "mustn\u0027t", "needn", "needn\u0027t",
   "shan", "shan\u0027t", "shouldn", "shouldn\u0027t", "wasn",
   "wasn\u0027t", "weren", "weren\u0027t", "won", "won\u0027t",
   "wouldn", "wouldn\u0027t"].map String.toList

/-- Stopword removal with the stopword set as a parameter (the source
builds the set once and then only tests membership against it). -/
def remove_stopwords_with (sw : List (List Char)) (iliad : List Char) :
    List Char :=
  joinSpace ((splitOnChar ' ' iliad).filter (fun w => !sw.contains (pyLower w)))

/-- Stopword removal from the source (`remove_stopwords`): keep the
space-split tokens whose
lowercase form is not a stopword and rejoin them with `' '`. -/
def remove_stopwords (iliad : List Char) : List Char :=
  remove_stopwords_with stop_words iliad

/-- The text handed to the sentiment scorer by the module top level:
`remove_stopwords(modernize_sentences(clean_poem(body)))`, mirroring the
successive reassignments of the global `iliad`. -/
def pipeline_text (body : List Char) : List Char :=
  let s1 := clean_poem body
  let s2 := modernize_sentences s1
  remove_stopwords s2

theorem splitOnChar_ne_nil (sep : Char) (s : List Char) :
    splitOnChar sep s ≠ [] := by
  induction s with
  | nil => simp [splitOnChar]
  | cons c rest ih =>
    simp only [splitOnChar]
    split
    · simp
    · cases h : splitOnChar sep rest with
      | nil => exact absurd h ih
      | cons p ps => simp [h]

theorem count_words_eq_count_space (s : List Char) :
    count_words s = s.count ' ' + 1 := by
  induction s with
  | nil => simp [count_words, splitOnChar]
  | cons c rest ih =>
    unfold count_words at ih ⊢
    simp only [splitOnChar]
    by_cases hc : c = ' '
    · subst hc
      simp [List.count_cons, ih]
    · rcases List.exists_cons_of_ne_nil (splitOnChar_ne_nil ' ' rest) with ⟨p, ps, hps⟩
      simp only [if_neg hc, hps]
      rw [hps] at ih
      simpa [List.count_cons, hc] using ih

theorem count_words_pos (s : List Char) : 1 ≤ count_words s := by
  rw [count_words_eq_count_space]; omega

theorem splitOnChar_no_sep (sep : Char) (s : List Char) :
    ∀ p ∈ splitOnChar sep s, sep ∉ p := by
  induction s with
  | nil => intro p hp; simp [splitOnChar] at hp; simp [hp]
  | cons c rest ih =>
    intro p hp
    simp only [splitOnChar] at hp
    by_cases hc : c = sep
    · rw [if_pos hc] at hp
      rcases List.mem_cons.1 hp with h | h
      · simp [h]
      · exact ih p h
    · rw [if_neg hc] at hp
      rcases hq : splitOnChar sep rest with _ | ⟨q, qs⟩
      · exact absurd hq (splitOnChar_ne_nil sep rest)
      · rw [hq] at hp
        rcases List.mem_cons.1 hp with h | h
        · subst h
          intro hmem
          rcases List.mem_cons.1 hmem with h | h
          · exact hc h.symm
          · exact ih q (hq ▸ List.mem_cons_self q qs) h
        · exact ih p (hq ▸ List.mem_cons_of_mem q h)

theorem splitOnChar_single (sep : Char) (p : List Char) (h : sep ∉ p) :
    splitOnChar sep p = [p] := by
  induction p with
  | nil => simp [splitOnChar]
  | cons c rest ih =>
    have hc : ¬c = sep := fun hc => h (by simp [hc])
    have hrest : sep ∉ rest := fun hm => h (List.mem_cons_of_mem c hm)
    simp only [splitOnChar, if_neg hc, ih hrest]

theorem splitOnChar_append_sep (sep : Char) (p t : List Char) (h : sep ∉ p) :
    splitOnChar sep (p ++ sep :: t) = p :: splitOnChar sep t := by
  induction p with
  | nil => simp [splitOnChar]
  | cons c rest ih =>
    have hc : ¬c = sep := fun hc => h (by simp [hc])
    have hrest : sep ∉ rest := fun hm => h (List.mem_cons_of_mem c hm)
    simp only [List.cons_append, splitOnChar, if_neg hc, List.append_eq,
      ih hrest]

theorem splitOnChar_joinSpace (parts : List (List Char)) (h : parts ≠ [])
    (hns : ∀ p ∈ parts, ' ' ∉ p) :
    splitOnChar ' ' (joinSpace parts) = parts := by
  induction parts with
  | nil => exact absurd rfl h
  | cons p ps ih =>
    cases ps with
    | nil =>
      exact splitOnChar_single ' ' p (hns p (List.mem_cons_self p []))
    | cons q qs =>
      have hp : ' ' ∉ p := hns p (List.mem_cons_self p (q :: qs))
      have hrec : ∀ r ∈ q :: qs, ' ' ∉ r :=
        fun r hr => hns r (List.mem_cons_of_mem p hr)
      simp only [joinSpace, splitOnChar_append_sep ' ' p _ hp,
        ih (by simp) hrec]

theorem count_space_modernize (s : List Char) :
    (modernize_sentences s).count ' ' = s.count ' ' := by
  induction s using modernize_sentences.induct with
  | case1 rest ih => simp [modernize_sentences, List.count_cons, ih]
  | case2 c rest h ih => simp [modernize_sentences, List.count_cons, ih]
  | case3 => simp [modernize_sentences]

theorem count_space_stripDigits (s : List Char) :
    (stripDigits s).count ' ' = s.count ' ' := by
  induction s with
  | nil => simp [stripDigits]
  | cons c rest ih =>
    unfold stripDigits at ih ⊢
    by_cases hd : c.isDigit
    · have hcs : ¬c = ' ' := fun hc => by subst hc; simp at hd
      simp [List.filter_cons, hd, List.count_cons, hcs, ih]
    · simp [List.filter_cons, hd, List.count_cons, ih]

theorem stripTrMark_sublist (s : List Char) :
    List.Sublist (stripTrMark s) s := by
  induction s using stripTrMark.induct with
  | case1 rest ih =>
    exact ih.trans ((List.sublist_cons_self _ _).trans
      ((List.sublist_cons_self _ _).trans ((List.sublist_cons_self _ _).trans
        (List.sublist_cons_self _ _))))
  | case2 c rest h ih => simpa [stripTrMark] using ih.cons₂ c
  | case3 => simp [stripTrMark]

theorem stripBrackets_cons_ne (c : Char) (rest : List Char) (h : c ≠ '[') :
    stripBrackets (c :: rest) = c :: stripBrackets rest := by
  rw [stripBrackets.eq_def]
  split
  next heq => simp at heq
  next r heq =>
    rw [List.cons.injEq] at heq
    exact absurd heq.1 h
  next c' r heq =>
    rw [List.cons.injEq] at heq
    rw [heq.1, heq.2]

theorem findCloseIdx_cons_ne (c : Char) (rest : List Char)
    (h1 : c ≠ ']') (h2 : c ≠ '\n') :
    findCloseIdx (c :: rest) = (findCloseIdx rest).map (· + 1) := by
  rw [findCloseIdx.eq_def]
  split
  next heq => simp at heq
  next r heq => rw [List.cons.injEq] at heq; exact absurd heq.1 h1
  next r heq => rw [List.cons.injEq] at heq; exact absurd heq.1 h2
  next c' r heq => rw [List.cons.injEq] at heq; rw [heq.2]

theorem stripBrackets_sublist (s : List Char) :
    List.Sublist (stripBrackets s) s := by
  induction s using stripBrackets.induct with
  | case1 => simp [stripBrackets]
  | case2 rest n hn ih =>
    rw [stripBrackets, hn]
    exact (ih.trans (List.drop_sublist _ _)).trans (List.sublist_cons_self _ _)
  | case3 rest hn ih =>
    rw [stripBrackets, hn]
    exact ih.cons₂ _
  | case4 c rest h ih =>
    rw [stripBrackets_cons_ne c rest (fun hc => h hc)]
    exact ih.cons₂ c

theorem collapseSpacesAux_mem (b : Bool) (s : List Char) :
    ∀ c ∈ collapseSpacesAux b s, c = ' ' ∨ c ∈ s := by
  induction s generalizing b with
  | nil => intro c hc; simp [collapseSpacesAux] at hc
  | cons d rest ih =>
    intro c hc
    simp only [collapseSpacesAux] at hc
    by_cases hd : isPySpace d
    · rw [if_pos hd] at hc
      cases b with
      | true =>
        rcases ih true c hc with h | h
        · exact Or.inl h
        · exact Or.inr (List.mem_cons_of_mem d h)
      | false =>
        simp only [if_neg (by simp : ¬(false = true))] at hc
        rcases List.mem_cons.1 hc with h | h
        · exact Or.inl h
        · rcases ih true c h with h' | h'
          · exact Or.inl h'
          · exact Or.inr (List.mem_cons_of_mem d h')
    · rw [if_neg hd] at hc
      rcases List.mem_cons.1 hc with h | h
      · exact Or.inr (h ▸ List.mem_cons_self d rest)
      · rcases ih false c h with h' | h'
        · exact Or.inl h'
        · exact Or.inr (List.mem_cons_of_mem d h')

theorem count_words_remove_stopwords_with_le (sw : List (List Char))
    (s : List Char) :
    count_words (remove_stopwords_with sw s) ≤ count_words s := by
  have hpos := count_words_pos s
  unfold remove_stopwords_with
  rcases hk : (splitOnChar ' ' s).filter (fun w => !sw.contains (pyLower w))
    with _ | ⟨k, ks⟩
  · simpa [joinSpace, count_words, splitOnChar] using hpos
  · have hns : ∀ p ∈ k :: ks, ' ' ∉ p := by
      intro p hp
      rw [← hk] at hp
      exact splitOnChar_no_sep ' ' s p (List.mem_of_mem_filter hp)
    simp only [count_words]
    rw [splitOnChar_joinSpace _ (by simp) hns]
    calc (k :: ks).length = ((splitOnChar ' ' s).filter
          (fun w => !sw.contains (pyLower w))).length := by rw [hk]
      _ ≤ (splitOnChar ' ' s).length := List.length_filter_le _ _

theorem rbhStep_marker_new (st : RBHState) (L : List Char)
    (hmark : hasSub bookTag L = true) (hnew : L ∉ st.markers) :
    rbhStep st L = ⟨L :: st.markers, false, st.poem⟩ := by
  simp [rbhStep, hmark, hnew]

theorem rbhStep_marker_seen (st : RBHState) (L : List Char)
    (hmark : hasSub bookTag L = true) (hseen : L ∈ st.markers) :
    rbhStep st L = ⟨st.markers, true, st.poem ++ [L]⟩ := by
  simp [rbhStep, hmark, hseen]

theorem rbh_foldl_skip_headers (m P : List (List Char))
    (hdr : List (List Char)) (hhdr : ∀ h ∈ hdr, hasSub bookTag h = false) :
    hdr.foldl rbhStep ⟨m, false, P⟩ = ⟨m, false, P⟩ := by
  induction hdr with
  | nil => rfl
  | cons h hs ih =>
    have hh := hhdr h (List.mem_cons_self h hs)
    simp only [List.foldl_cons]
    rw [show rbhStep ⟨m, false, P⟩ h = ⟨m, false, P⟩ from by
      simp [rbhStep, hh]]
    exact ih (fun x hx => hhdr x (List.mem_cons_of_mem h hx))

theorem rbh_foldl_keep_poem (m P post : List (List Char))
    (hpost : ∀ p ∈ post, hasSub bookTag p = false) :
    post.foldl rbhStep ⟨m, true, P⟩ = ⟨m, true, P ++ post⟩ := by
  induction post generalizing P with
  | nil => simp
  | cons p ps ih =>
    have hp := hpost p (List.mem_cons_self p ps)
    simp only [List.foldl_cons]
    rw [show rbhStep ⟨m, true, P⟩ p = ⟨m, true, P ++ [p]⟩ from by
      simp [rbhStep, hp]]
    rw [ih (P ++ [p]) (fun x hx => hpost x (List.mem_cons_of_mem p hx))]
    simp

theorem findAt_eq_none (pat s : List Char) (h : hasSub pat s = false) :
    findAt pat s = none := by
  induction s with
  | nil =>
    simp only [hasSub] at h
    simp [findAt, h]
  | cons c rest ih =>
    rw [hasSub, Bool.or_eq_false_iff] at h
    simp [findAt, h.1, ih h.2]

theorem stripBrackets_append_no_open (a t : List Char) (ha : '[' ∉ a) :
    stripBrackets (a ++ t) = a ++ stripBrackets t := by
  induction a with
  | nil => simp
  | cons c a' ih =>
    have hc : c ≠ '[' := fun h => ha (by simp [h])
    have ha' : '[' ∉ a' := fun h => ha (List.mem_cons_of_mem c h)
    simp only [List.cons_append]
    rw [stripBrackets_cons_ne c _ hc, ih ha']

theorem findCloseIdx_append (b c : List Char) (hb1 : ']' ∉ b)
    (hb2 : '\n' ∉ b) :
    findCloseIdx (b ++ ']' :: c) = some b.length := by
  induction b with
  | nil => simp [findCloseIdx]
  | cons d b' ih =>
    have hd1 : d ≠ ']' := fun h => hb1 (by simp [h])
    have hd2 : d ≠ '\n' := fun h => hb2 (by simp [h])
    rw [List.cons_append, findCloseIdx_cons_ne d _ hd1 hd2,
      ih (fun h => hb1 (List.mem_cons_of_mem d h))
        (fun h => hb2 (List.mem_cons_of_mem d h))]
    simp

theorem findCloseIdx_none_of_no_close (b : List Char) (hb : ']' ∉ b) :
    findCloseIdx b = none := by
  induction b with
  | nil => rfl
  | cons d b' ih =>
    by_cases hdn : d = '\n'
    · subst hdn; rfl
    · have hd1 : d ≠ ']' := fun h => hb (by simp [h])
      rw [findCloseIdx_cons_ne d _ hd1 hdn,
        ih (fun h => hb (List.mem_cons_of_mem d h))]
      rfl

/-- C10: `count_words s` is the number of space characters (U+0020) in
`s` plus one; in particular it is `1` on the empty string, never `0`,
and `'\r\n'` does not separate words for counting purposes. -/
theorem count_words_space_count (s : List Char) :
    count_words s = s.count ' ' + 1 ∧ count_words [] = 1 ∧
    count_words s ≠ 0 ∧
    count_words ('a' :: '\r' :: '\n' :: 'b' :: []) = 1 := by
  refine ⟨count_words_eq_count_space s, rfl, ?_, rfl⟩
  have := count_words_pos s
  omega

/-- C5: the apostrophe-normalization stage `modernize_sentences` is
word-count preserving: replacing `'’d'` by `'ed'` neither adds nor
removes space characters. -/
theorem modernize_sentences_count_words (s : List Char) :
    count_words (modernize_sentences s) = count_words s := by
  rw [count_words_eq_count_space, count_words_eq_count_space,
    count_space_modernize]

/-- C4: the digit-stripping step of `clean_poem` yields no ASCII digit
and keeps all non-digit characters in their original order (its output
is a sublist of the input retaining every non-digit occurrence), and
`clean_poem` as a whole yields no ASCII digit. -/
theorem stripDigits_no_digits (s : List Char) :
    (∀ c ∈ stripDigits s, c.isDigit = false) ∧
    List.Sublist (stripDigits s) s ∧
    (∀ c : Char, c.isDigit = false → (stripDigits s).count c = s.count c) ∧
    (∀ c ∈ clean_poem s, c.isDigit = false) := by
  have hmem : ∀ t : List Char, ∀ c ∈ stripDigits t, c.isDigit = false := by
    intro t c hc
    have := (List.mem_filter.1 hc).2
    simpa using this
  refine ⟨hmem s, List.filter_sublist s, ?_, ?_⟩
  · intro c hc
    exact List.count_filter (by simp [hc])
  · intro c hc
    unfold clean_poem at hc
    rcases collapseSpacesAux_mem false _ c hc with h | h
    · subst h; rfl
    · have h2 := (stripTrMark_sublist _).subset h
      have h3 := (stripBrackets_sublist _).subset h2
      exact hmem _ c h3

/-- C9: each cleaning transformation is a pure, deterministic function
of the text buffer (and, for the stopword stage, of the stopword set):
equal input buffers give equal output buffers. -/
theorem stages_deterministic (sw : List (List Char)) (s t : List Char)
    (h : s = t) :
    remove_book_headers s = remove_book_headers t ∧
    clean_poem s = clean_poem t ∧
    modernize_sentences s = modernize_sentences t ∧
    remove_stopwords_with sw s = remove_stopwords_with sw t ∧
    remove_stopwords s = remove_stopwords t := by
  subst h
  exact ⟨rfl, rfl, rfl, rfl, rfl⟩

theorem stages_deterministic_witness :
    remove_book_headers ('a' :: []) = remove_book_headers ('a' :: []) ∧
    clean_poem ('a' :: []) = clean_poem ('a' :: []) ∧
    modernize_sentences ('a' :: []) = modernize_sentences ('a' :: []) ∧
    remove_stopwords_with stop_words ('a' :: []) =
      remove_stopwords_with stop_words ('a' :: []) ∧
    remove_stopwords ('a' :: []) = remove_stopwords ('a' :: []) :=
  stages_deterministic stop_words ('a' :: []) ('a' :: []) rfl

/-- C8: the module top level hands the sentiment scorer exactly
`remove_stopwords (modernize_sentences (clean_poem body))`, and inside
`clean_poem` header stripping, newline replacement, digit stripping,
bracket removal, `'—Tr.'` removal and whitespace collapsing run in that
order. -/
theorem pipeline_linear_order (s : List Char) :
    pipeline_text s =
      remove_stopwords (modernize_sentences (clean_poem s)) ∧
    clean_poem s =
      collapseSpaces (stripTrMark (stripBrackets (stripDigits
        (replaceCRLF (remove_book_headers s))))) :=
  ⟨rfl, rfl⟩

/-- C1 fails as stated: `remove_book_headers` and the whitespace-collapse
step of `clean_poem` can increase the word count, since they turn
`'\r\n'` (respectively any non-space whitespace such as a tab) into a
space that `count_words` counts as a separator. -/
theorem cleaning_stages_word_count_cex :
    count_words ('a' :: '\r' :: '\n' :: 'b' :: []) <
      count_words (remove_book_headers ('a' :: '\r' :: '\n' :: 'b' :: [])) ∧
    count_words ('a' :: '\t' :: 'b' :: []) <
      count_words (collapseSpaces ('a' :: '\t' :: 'b' :: [])) := by
  constructor <;> decide

/-- C1 (amended): the digit-stripping and bracket-removal steps of
`clean_poem`, and `remove_stopwords`, never increase the word count as
measured by `count_words` (`remove_book_headers` and the
whitespace-collapse step can increase it). -/
theorem cleaning_stages_word_count (s : List Char) :
    count_words (stripDigits s) ≤ count_words s ∧
    count_words (stripBrackets s) ≤ count_words s ∧
    count_words (remove_stopwords s) ≤ count_words s := by
  refine ⟨?_, ?_, count_words_remove_stopwords_with_le stop_words s⟩
  · rw [count_words_eq_count_space, count_words_eq_count_space,
      count_space_stripDigits]
  · rw [count_words_eq_count_space, count_words_eq_count_space]
    have := (stripBrackets_sublist s).count_le ' '
    omega

/-- C3 fails as stated: when every input token is a stopword the output
is the empty string, whose single space-delimited token (the empty
token) is not a token of the input. -/
theorem remove_stopwords_tokens_cex :
    ([] : List Char) ∈ splitOnChar ' ' (remove_stopwords ("the".toList)) ∧
    ([] : List Char) ∉ splitOnChar ' ' ("the".toList) := by
  constructor <;> decide

/-- C3 (amended): no space-delimited token of the stopword-removal output
has a lowercase form in the stopword set, and every token of the output
is a token of the input whose lowercase form is not in the set — except
that when no input token survives the filter the output is the empty
string, whose single token is the empty token. -/
theorem remove_stopwords_tokens (s : List Char) :
    (∀ w ∈ splitOnChar ' ' (remove_stopwords s),
      stop_words.contains (pyLower w) = false) ∧
    (∀ w ∈ splitOnChar ' ' (remove_stopwords s),
      (w ∈ splitOnChar ' ' s ∧ stop_words.contains (pyLower w) = false) ∨
      (w = [] ∧ remove_stopwords s = [])) := by
  have hmain : ∀ w ∈ splitOnChar ' ' (remove_stopwords s),
      (w ∈ splitOnChar ' ' s ∧ stop_words.contains (pyLower w) = false) ∨
      (w = [] ∧ remove_stopwords s = []) := by
    intro w hw
    unfold remove_stopwords remove_stopwords_with at hw ⊢
    rcases hk : (splitOnChar ' ' s).filter
        (fun w => !stop_words.contains (pyLower w)) with _ | ⟨k, ks⟩
    · rw [hk] at hw
      right
      refine ⟨by simpa [joinSpace, splitOnChar] using hw, rfl⟩
    · rw [hk] at hw
      rw [splitOnChar_joinSpace _ (by simp) (fun p hp =>
        splitOnChar_no_sep ' ' s p
          (List.mem_of_mem_filter (by rw [hk]; exact hp)))] at hw
      left
      have hmem : w ∈ (splitOnChar ' ' s).filter
          (fun w => !stop_words.contains (pyLower w)) := by
        rw [hk]; exact hw
      have := List.mem_filter.1 hmem
      exact ⟨this.1, by simpa using this.2⟩
  refine ⟨?_, hmain⟩
  intro w hw
  rcases hmain w hw with h | h
  · exact h.2
  · rw [h.1]
    decide

/-- C6: bracketed-comment removal is a non-greedy match: with no `'['`
before the span and no `']'` (and no newline) inside it, the deleted
span runs from the `'['` to the nearest following `']'` — even when the
span contains a nested `'['` — and a `'['` with no following `']'` is
left in place. -/
theorem stripBrackets_nongreedy (a b c : List Char)
    (ha : '[' ∉ a) (hb1 : ']' ∉ b) (hb2 : '\n' ∉ b) :
    stripBrackets (a ++ ('[' :: (b ++ ']' :: c))) = a ++ stripBrackets c ∧
    stripBrackets (a ++ '[' :: b) = a ++ '[' :: stripBrackets b := by
  constructor
  · rw [stripBrackets_append_no_open a _ ha]
    congr 1
    rw [stripBrackets, findCloseIdx_append b c hb1 hb2]
    show stripBrackets ((b ++ ']' :: c).drop (b.length + 1)) = stripBrackets c
    congr 1
    rw [show b ++ ']' :: c = (b ++ [']']) ++ c by simp,
      show b.length + 1 = (b ++ [']']).length by simp]
    exact List.drop_left _ _
  · rw [stripBrackets_append_no_open a _ ha]
    congr 1
    rw [stripBrackets, findCloseIdx_none_of_no_close b hb1]

theorem stripBrackets_nongreedy_witness :
    stripBrackets (('x' :: ']' :: []) ++
        ('[' :: (('y' :: '[' :: []) ++ ']' :: ('z' :: [])))) =
      ('x' :: ']' :: []) ++ stripBrackets ('z' :: []) ∧
    stripBrackets (('x' :: ']' :: []) ++ '[' :: ('y' :: '[' :: [])) =
      ('x' :: ']' :: []) ++ '[' :: stripBrackets ('y' :: '[' :: []) :=
  stripBrackets_nongreedy ('x' :: ']' :: []) ('y' :: '[' :: [])
    ('z' :: []) (by decide) (by decide) (by decide)

/-- C7 fails as stated: lacking both delimiters is not a fault — Python
`find` returns `-1`, the slice evaluates to the empty string, and the
pipeline continues with that value down to the text handed to the
scorer. -/
theorem get_Iliad_malformed_cex :
    get_Iliad ("Hello world".toList) = [] ∧
    pipeline_text (get_Iliad ("Hello world".toList)) = [] := by
  have h0 : get_Iliad ("Hello world".toList) = [] := by decide
  refine ⟨h0, ?_⟩
  rw [h0]
  show remove_stopwords (modernize_sentences (collapseSpaces (stripTrMark
    (stripBrackets (stripDigits (replaceCRLF (remove_book_headers []))))))) = []
  rw [show stripDigits (replaceCRLF (remove_book_headers [])) = [] from by
    decide]
  rw [show stripBrackets [] = [] from by rw [stripBrackets]]
  decide

/-- C7 (amended): when the fetched text lacks both the
`"ENGLISH BLANK VERSE."` and the `"FOOTNOTES"` delimiters, both `find`s
return `-1`, the slice `iliad[-1:-1]` is empty, and `get_Iliad` returns
the empty text that the rest of the pipeline keeps processing; no fault
interrupts the run. -/
theorem get_Iliad_malformed (s : List Char)
    (h1 : hasSub endHeaderMark s = false)
    (h2 : hasSub startFooterMark s = false) :
    get_Iliad s = [] := by
  unfold get_Iliad pyFind
  rw [findAt_eq_none _ _ h1, findAt_eq_none _ _ h2]
  unfold pySlice
  simp

theorem get_Iliad_malformed_witness :
    get_Iliad ("Sing O goddess the anger".toList) = [] :=
  get_Iliad_malformed ("Sing O goddess the anger".toList) (by decide)
    (by decide)

/-- C2: when the split lines are `pre`, a first occurrence of a
`'BOOK '` marker line `L` not seen in `pre`, header lines without a
marker, the repeated `L`, and poem lines without a marker, then
`remove_book_headers` excludes the first occurrence of `L` and the
header lines after it, and includes the second occurrence and the poem
lines following it: the toggle is keyed on first-versus-repeated
occurrence of the marker line. -/
theorem remove_book_headers_toggle (s L : List Char)
    (pre hdr post : List (List Char))
    (hs : splitCRLF s = pre ++ L :: (hdr ++ L :: post))
    (hmark : hasSub bookTag L = true)
    (hnew : L ∉ (rbhRun pre).markers)
    (hhdr : ∀ h ∈ hdr, hasSub bookTag h = false)
    (hpost : ∀ p ∈ post, hasSub bookTag p = false) :
    (rbhRun (splitCRLF s)).poem = (rbhRun pre).poem ++ L :: post ∧
    remove_book_headers s = joinSpace ((rbhRun pre).poem ++ L :: post) := by
  have hrun : rbhRun (splitCRLF s) =
      ⟨L :: (rbhRun pre).markers, true, (rbhRun pre).poem ++ L :: post⟩ := by
    rw [hs]
    unfold rbhRun at hnew ⊢
    rw [List.foldl_append, List.foldl_cons,
      rbhStep_marker_new _ L hmark hnew, List.foldl_append,
      rbh_foldl_skip_headers _ _ hdr hhdr, List.foldl_cons,
      rbhStep_marker_seen _ L hmark (List.mem_cons_self _ _),
      rbh_foldl_keep_poem _ _ post hpost]
    simp
  exact ⟨by rw [hrun], by unfold remove_book_headers; rw [hrun]⟩

/-- A synthetic mini-poem with a duplicated `BOOK I.` header line. -/
def sampleHeaderText : List Char :=
  "BOOK I.\r\nArgument here.\r\nBOOK I.\r\nSing Muse of wrath".toList

theorem remove_book_headers_toggle_witness :
    (rbhRun (splitCRLF sampleHeaderText)).poem =
      (rbhRun []).poem ++ "BOOK I.".toList ::
        ("Sing Muse of wrath".toList :: []) ∧
    remove_book_headers sampleHeaderText =
      joinSpace ((rbhRun []).poem ++ "BOOK I.".toList ::
        ("Sing Muse of wrath".toList :: [])) :=
  remove_book_headers_toggle sampleHeaderText "BOOK I.".toList []
    ("Argument here.".toList :: []) ("Sing Muse of wrath".toList :: [])
    (by decide) (by decide) (by decide) (by decide) (by decide)

theorem count_words_space_count_witness :
    count_words ("a b".toList) = ("a b".toList).count ' ' + 1 ∧
    count_words [] = 1 ∧ count_words ("a b".toList) ≠ 0 ∧
    count_words ('a' :: '\r' :: '\n' :: 'b' :: []) = 1 :=
  count_words_space_count ("a b".toList)

theorem modernize_sentences_count_words_witness :
    count_words (modernize_sentences ("arm’d the crest".toList)) =
      count_words ("arm’d the crest".toList) :=
  modernize_sentences_count_words ("arm’d the crest".toList)

theorem stripDigits_no_digits_witness :
    (∀ c ∈ stripDigits ("a1 b2".toList), c.isDigit = false) ∧
    List.Sublist (stripDigits ("a1 b2".toList)) ("a1 b2".toList) ∧
    (∀ c : Char, c.isDigit = false →
      (stripDigits ("a1 b2".toList)).count c = ("a1 b2".toList).count c) ∧
    (∀ c ∈ clean_poem ("a1 b2".toList), c.isDigit = false) :=
  stripDigits_no_digits ("a1 b2".toList)

theorem pipeline_linear_order_witness :
    pipeline_text ("a1 [b] c".toList) =
      remove_stopwords (modernize_sentences (clean_poem ("a1 [b] c".toList))) ∧
    clean_poem ("a1 [b] c".toList) =
      collapseSpaces (stripTrMark (stripBrackets (stripDigits
        (replaceCRLF (remove_book_headers ("a1 [b] c".toList)))))) :=
  pipeline_linear_order ("a1 [b] c".toList)

theorem cleaning_stages_word_count_witness :
    count_words (stripDigits ("a1 b".toList)) ≤ count_words ("a1 b".toList) ∧
    count_words (stripBrackets ("a1 b".toList)) ≤
      count_words ("a1 b".toList) ∧
    count_words (remove_stopwords ("a1 b".toList)) ≤
      count_words ("a1 b".toList) :=
  cleaning_stages_word_count ("a1 b".toList)

theorem remove_stopwords_tokens_witness :
    (∀ w ∈ splitOnChar ' ' (remove_stopwords ("Sing the wrath".toList)),
      stop_words.contains (pyLower w) = false) ∧
    (∀ w ∈ splitOnChar ' ' (remove_stopwords ("Sing the wrath".toList)),
      (w ∈ splitOnChar ' ' ("Sing the wrath".toList) ∧
        stop_words.contains (pyLower w) = false) ∨
      (w = [] ∧ remove_stopwords ("Sing the wrath".toList) = [])) :=
  remove_stopwords_tokens ("Sing the wrath".toList)
